import Mathlib

/-!
Verification of the ITEP-RN scheduling pipeline (src/main.go).

The Go program discovers appointment slots against a remote HTTP API and
books a bounded number of them concurrently.  This file gives a shallow
embedding of the core functions:

* `bookAppointment` (main.go:429-480): request construction, HTTP outcome
  handling and the semantic `agendou` check.  The single HTTP POST is
  modelled by an oracle `post : BookingRequest → HttpOutcome`; the Go
  `nil`/`error` pair becomes `Except String`; the possible slice panic of
  `slot.Time[:5]` makes the embedding return an `Option` (`none` = panic).
* `selectUniqueSlots` (main.go:375-393): deduplication by time-of-day with
  the configured count as cap.
* `collectAllTimeSlots` (main.go:264-309): per-order fan-out, skipping
  failing orders, followed by `sort.Slice`.  Since `sort.Slice` is
  documented as NOT stable, the sort is embedded relationally: any
  permutation of the accumulated slots that is sorted by the `Time` field
  is a valid output.
* `bookAppointmentsConcurrently` (main.go:400-427): embedded twice — as a
  deterministic per-index function (`bookAll`, task i books slot i), and as
  a small-step transition system (`BatchStep`) whose schedules model the
  nondeterministic interleaving of the goroutines and the capacity-5
  semaphore.
* `runScheduling` (main.go:142-221): the top-level pipeline and its fatal
  error cases.

Go strings are modelled as Lean `String`; Go indexes bytes where Lean
indexes characters, which coincide on the ASCII date/time strings this
program manipulates.  Go `int` is modelled as `Int` (no arithmetic that
could overflow occurs in the embedded code).
-/

namespace ItepScheduling

/-- `Location` struct (main.go:35-38). -/
structure Location where
  id : Int
  nome : String
deriving DecidableEq, Repr

/-- `Order` struct (main.go:27-33). -/
structure Order where
  id : Int
  dataInicio : String
  dataFim : String
  vagasCount : String
  location : Location
deriving DecidableEq, Repr

/-- `BookingRequest` struct (main.go:40-44), the wire body of `POST /vagas`. -/
structure BookingRequest where
  idOrdem : Int
  data : String
  hora : String
deriving DecidableEq, Repr

/-- `BookingResponse` struct (main.go:46-49). -/
structure BookingResponse where
  codigoVaga : String
  agendou : Int
deriving DecidableEq, Repr

/-- The Go zero value `BookingResponse{}`, returned on every error path of
`bookAppointment`. -/
def BookingResponse.zero : BookingResponse := ⟨"", 0⟩

/-- `TimeSlot` struct (main.go:51-55). -/
structure TimeSlot where
  orderID : Int
  date : String
  time : String
deriving DecidableEq, Repr

/-- `BookingResult` struct (main.go:395-398): the Go `(response, err)` pair
written into the result slice; `err = none` models a `nil` error. -/
structure BookingResult where
  response : BookingResponse
  err : Option String
deriving DecidableEq, Repr

/-- The fields of `Config` (main.go:20-25) consumed by the core pipeline.
`appointmentCount` is a Go `int`, hence `Int`. -/
structure Config where
  location : String
  appointmentCount : Int
deriving DecidableEq, Repr

/-! ### Date parsing and formatting

`bookAppointment` runs `time.Parse("2006-01-02", slot.Date)` and then
formats the parsed date back with layout `"2006-01-02T15:04:05.000Z"` at
03:00:00 UTC.  `parseDateISO` embeds the parse (exactly ten characters,
zero-padded components, month and day range checks with the Gregorian leap
rule, as `time.Parse` validates them); `formatDateISO` embeds the
zero-padded formatting. -/

/-- Numeric value of a decimal digit character. -/
def digitVal (c : Char) : Nat := c.toNat - 48

/-- Gregorian leap-year rule, as applied by Go `time.Date` validation. -/
def isLeapYear (y : Nat) : Bool := y % 4 == 0 && (y % 100 != 0 || y % 400 == 0)

/-- Days in a month, used by Go `time.Parse` to reject out-of-range days. -/
def daysInMonth (y m : Nat) : Nat :=
  if m = 2 then (if isLeapYear y then 29 else 28)
  else if m = 4 ∨ m = 6 ∨ m = 9 ∨ m = 11 then 30
  else 31

/-- Embedding of `time.Parse("2006-01-02", s)` (main.go:430): exactly the
shape `YYYY-MM-DD` with valid month and day is accepted; the result is the
`(year, month, day)` triple. -/
def parseDateISO (s : String) : Option (Nat × Nat × Nat) :=
  match s.data with
  | [y1, y2, y3, y4, c1, m1, m2, c2, d1, d2] =>
    if y1.isDigit ∧ y2.isDigit ∧ y3.isDigit ∧ y4.isDigit ∧ c1 = '-' ∧
       m1.isDigit ∧ m2.isDigit ∧ c2 = '-' ∧ d1.isDigit ∧ d2.isDigit then
      let y := 1000 * digitVal y1 + 100 * digitVal y2 + 10 * digitVal y3 + digitVal y4
      let m := 10 * digitVal m1 + digitVal m2
      let d := 10 * digitVal d1 + digitVal d2
      if 1 ≤ m ∧ m ≤ 12 ∧ 1 ≤ d ∧ d ≤ daysInMonth y m then some (y, m, d) else none
    else none
  | _ => none

/-- Two-digit zero-padded decimal, as Go layout `01`/`02` formats months and
days below 100. -/
def pad2 (n : Nat) : String := if n < 10 then "0" ++ toString n else toString n

/-- Four-digit zero-padded decimal for values below 10000 (Go layout `2006`
for the years accepted by `parseDateISO`), written as two two-digit halves. -/
def pad4 (n : Nat) : String := pad2 (n / 100) ++ pad2 (n % 100)

/-- Embedding of Go `Format("2006-01-02")` on a parsed date. -/
def formatDateISO (y m d : Nat) : String := pad4 y ++ "-" ++ pad2 m ++ "-" ++ pad2 d

theorem pad2_lt_100 : ∀ n, n < 100 →
    pad2 n = String.mk [Char.ofNat (48 + n / 10), Char.ofNat (48 + n % 10)] := by
  decide

theorem digit_char_eq (a : Char) (h : a.isDigit = true) :
    digitVal a < 10 ∧ Char.ofNat (48 + digitVal a) = a := by
  have h0 : ('0' : Char) ≤ a ∧ a ≤ '9' := by
    simpa [Char.isDigit, Bool.and_eq_true] using h
  have hlo : 48 ≤ a.toNat := h0.1
  have hhi : a.toNat ≤ 57 := h0.2
  refine ⟨by simp only [digitVal]; omega, ?_⟩
  have : 48 + digitVal a = a.toNat := by simp only [digitVal]; omega
  rw [this, Char.ofNat_toNat]

theorem pad2_digits (a b : Char) (ha : a.isDigit = true) (hb : b.isDigit = true) :
    pad2 (10 * digitVal a + digitVal b) = String.mk [a, b] := by
  obtain ⟨ha10, hae⟩ := digit_char_eq a ha
  obtain ⟨hb10, hbe⟩ := digit_char_eq b hb
  rw [pad2_lt_100 _ (by omega)]
  have hdiv : (10 * digitVal a + digitVal b) / 10 = digitVal a := by omega
  have hmod : (10 * digitVal a + digitVal b) % 10 = digitVal b := by omega
  rw [hdiv, hmod, hae, hbe]

theorem string_mk_append (l₁ l₂ : List Char) :
    String.mk l₁ ++ String.mk l₂ = String.mk (l₁ ++ l₂) := rfl

theorem pad4_digits (a b c d : Char) (ha : a.isDigit = true) (hb : b.isDigit = true)
    (hc : c.isDigit = true) (hd : d.isDigit = true) :
    pad4 (1000 * digitVal a + 100 * digitVal b + 10 * digitVal c + digitVal d) =
      String.mk [a, b, c, d] := by
  obtain ⟨ha10, -⟩ := digit_char_eq a ha
  obtain ⟨hb10, -⟩ := digit_char_eq b hb
  obtain ⟨hc10, -⟩ := digit_char_eq c hc
  obtain ⟨hd10, -⟩ := digit_char_eq d hd
  have hdiv : (1000 * digitVal a + 100 * digitVal b + 10 * digitVal c + digitVal d) / 100 =
      10 * digitVal a + digitVal b := by omega
  have hmod : (1000 * digitVal a + 100 * digitVal b + 10 * digitVal c + digitVal d) % 100 =
      10 * digitVal c + digitVal d := by omega
  rw [pad4, hdiv, hmod, pad2_digits a b ha hb, pad2_digits c d hc hd, string_mk_append]
  rfl

/-- The Go parse/format pair is a round trip: formatting a successfully
parsed `YYYY-MM-DD` string reproduces it. -/
theorem formatDateISO_parseDateISO {s : String} {y m d : Nat}
    (h : parseDateISO s = some (y, m, d)) : formatDateISO y m d = s := by
  obtain ⟨sd⟩ := s
  unfold parseDateISO at h
  dsimp only at h
  split at h
  case h_2 => exact absurd h (by simp)
  case h_1 x y1 y2 y3 y4 c1 m1 m2 c2 d1 d2 =>
    split at h
    case isFalse => exact absurd h (by simp)
    case isTrue hdig =>
      split at h
      case isFalse => exact absurd h (by simp)
      case isTrue hrange =>
        simp only [Option.some.injEq, Prod.mk.injEq] at h
        obtain ⟨h1, h2, h3⟩ := h
        obtain ⟨hy1, hy2, hy3, hy4, hc1, hm1, hm2, hc2, hd1, hd2⟩ := hdig
        subst h1 h2 h3 hc1 hc2
        rw [formatDateISO, pad4_digits y1 y2 y3 y4 hy1 hy2 hy3 hy4,
          pad2_digits m1 m2 hm1 hm2, pad2_digits d1 d2 hd1 hd2]
        rfl

/-! ### The booking call (`bookAppointment`, main.go:429-480)

The single `POST {base}/vagas` is modelled by an oracle giving the outcome
of the call: a transport failure (`http.Client.Post` error), a body-read
failure (`io.ReadAll` error), or a reply with a status code, the raw body,
and the result of `json.Unmarshal` on that body. -/

/-- Outcome of the HTTP POST performed by `bookAppointment`. -/
inductive HttpOutcome where
  | transportError (msg : String)
  | readError (msg : String)
  | reply (status : Nat) (body : String) (decoded : Except String BookingResponse)

/-- Embedding of the Go slice expression `slot.Time[:5]` (main.go:437):
`none` models the runtime panic raised when the string is shorter than 5
(the Go code does not guard the index). -/
def timePrefix5 (t : String) : Option String :=
  if 5 ≤ t.length then some (String.mk (t.data.take 5)) else none

/-- The `BookingRequest` that `bookAppointment` constructs before posting
(main.go:430-443): the `data` field is the parsed slot date re-formatted at
03:00:00 UTC with layout `2006-01-02T15:04:05.000Z`, and `hora` is
`slot.Time[:5]`.  `none` when the date does not parse (the function errors
out first) or when the time slice panics. -/
def buildBookingRequest (slot : TimeSlot) : Option BookingRequest :=
  match parseDateISO slot.date with
  | none => none
  | some (y, m, d) =>
    match timePrefix5 slot.time with
    | none => none
    | some hora =>
      some ⟨slot.orderID, formatDateISO y m d ++ "T03:00:00.000Z", hora⟩

/-- Handling of the POST outcome in `bookAppointment` (main.go:452-479):
transport and read errors are wrapped, a non-200 status is an error
carrying status and raw body, a decode failure is an error, and a decoded
response with `agendou != 1` is an error even though the HTTP call
succeeded; only `agendou = 1` is a success. -/
def handleBookingReply (outcome : HttpOutcome) : Except String BookingResponse :=
  match outcome with
  | HttpOutcome.transportError e => Except.error ("HTTP request failed: " ++ e)
  | HttpOutcome.readError e => Except.error ("failed to read response: " ++ e)
  | HttpOutcome.reply status body decoded =>
    if status = 200 then
      match decoded with
      | Except.error e => Except.error ("failed to parse response: " ++ e)
      | Except.ok br =>
        if br.agendou = 1 then Except.ok br
        else Except.error ("booking was not successful: agendou=" ++ toString br.agendou)
    else Except.error ("HTTP error " ++ toString status ++ ": " ++ body)

/-- Embedding of `bookAppointment` (main.go:429-480).  The outer `Option`
models the possible panic of the `slot.Time[:5]` slice; the `Except`
is the Go `(BookingResponse, error)` pair. -/
def bookAppointment (slot : TimeSlot) (post : BookingRequest → HttpOutcome) :
    Option (Except String BookingResponse) :=
  match parseDateISO slot.date with
  | none => some (Except.error "invalid date format")
  | some (y, m, d) =>
    match timePrefix5 slot.time with
    | none => none
    | some hora =>
      some (handleBookingReply
        (post ⟨slot.orderID, formatDateISO y m d ++ "T03:00:00.000Z", hora⟩))

/-- `bookAppointment` posts exactly the request `buildBookingRequest`
describes and handles the reply with `handleBookingReply`. -/
theorem bookAppointment_eq_handle (slot : TimeSlot) (post : BookingRequest → HttpOutcome)
    (req : BookingRequest) (hreq : buildBookingRequest slot = some req) :
    bookAppointment slot post = some (handleBookingReply (post req)) := by
  unfold buildBookingRequest at hreq
  unfold bookAppointment
  rcases hd : parseDateISO slot.date with _ | ⟨y, m, d⟩ <;> rw [hd] at hreq
  · exact Option.noConfusion hreq
  · rcases ht : timePrefix5 slot.time with _ | hora <;> rw [ht] at hreq
    · exact Option.noConfusion hreq
    · show some (handleBookingReply
          (post ⟨slot.orderID, formatDateISO y m d ++ "T03:00:00.000Z", hora⟩)) =
        some (handleBookingReply (post req))
      rw [Option.some.inj hreq]

/-- C1: a booking attempt whose HTTP call returns status 200 with a body
decoding to a `BookingResponse` whose `agendou` field is not 1 makes
`bookAppointment` return an error, never a success. -/
theorem semantic_failure_is_error (slot : TimeSlot) (post : BookingRequest → HttpOutcome)
    (req : BookingRequest) (body : String) (br : BookingResponse)
    (hreq : buildBookingRequest slot = some req)
    (hpost : post req = HttpOutcome.reply 200 body (Except.ok br))
    (hag : br.agendou ≠ 1) :
    bookAppointment slot post =
      some (Except.error ("booking was not successful: agendou=" ++ toString br.agendou)) := by
  rw [bookAppointment_eq_handle slot post req hreq, hpost]
  unfold handleBookingReply
  simp [hag]

theorem semantic_failure_is_error_witness :
    bookAppointment ⟨1, "2024-06-10", "09:00:00"⟩
        (fun _ => HttpOutcome.reply 200 "raw" (Except.ok ⟨"X1", 0⟩)) =
      some (Except.error "booking was not successful: agendou=0") :=
  (semantic_failure_is_error ⟨1, "2024-06-10", "09:00:00"⟩ _
      ⟨1, "2024-06-10T03:00:00.000Z", "09:00"⟩ "raw" ⟨"X1", 0⟩
      (by decide) rfl (by decide)).trans (by rfl)

/-- C6: the request built for a slot carries `data` equal to the slot date
at exactly 03:00:00.000 UTC in the form `YYYY-MM-DDT03:00:00.000Z`
(whatever the slot time is), and `hora` equal to the first five characters
of the slot time string. -/
theorem booking_request_normalization (slot : TimeSlot) (y m d : Nat)
    (hdate : parseDateISO slot.date = some (y, m, d))
    (htime : 5 ≤ slot.time.length) :
    buildBookingRequest slot =
      some ⟨slot.orderID, slot.date ++ "T03:00:00.000Z", String.mk (slot.time.data.take 5)⟩ := by
  have hfmt := formatDateISO_parseDateISO hdate
  unfold buildBookingRequest timePrefix5
  rw [hdate, if_pos htime, ← hfmt]

theorem booking_request_normalization_witness :
    buildBookingRequest ⟨7, "2024-06-10", "09:30:00"⟩ =
      some ⟨7, "2024-06-10T03:00:00.000Z", "09:30"⟩ :=
  (booking_request_normalization ⟨7, "2024-06-10", "09:30:00"⟩ 2024 6 10
      (by decide) (by decide)).trans (by rfl)

/-- C9: `slot.Time[:5]` is an unguarded truncation: on any slot whose time
string is shorter than five characters (and whose date survives the earlier
parse, so that control reaches the slice) `bookAppointment` panics, while
a time of length at least five never reaches the panic. -/
theorem time_slice_panic (slot : TimeSlot) (post : BookingRequest → HttpOutcome) :
    (5 ≤ slot.time.length → bookAppointment slot post ≠ none) ∧
    (slot.time.length < 5 → (parseDateISO slot.date).isSome →
      bookAppointment slot post = none) := by
  unfold bookAppointment timePrefix5
  rcases hd : parseDateISO slot.date with _ | ⟨y, m, d⟩
  · exact ⟨fun _ h => Option.noConfusion h, fun _ hs => Bool.noConfusion hs⟩
  · constructor
    · intro h5
      rw [if_pos h5]
      exact fun h => Option.noConfusion h
    · intro h5 _
      rw [if_neg (by omega)]

theorem time_slice_panic_witness :
    bookAppointment ⟨1, "2024-06-10", "09:"⟩ (fun _ => HttpOutcome.transportError "x") = none ∧
    bookAppointment ⟨1, "2024-06-10", "09:00:00"⟩ (fun _ => HttpOutcome.transportError "x") ≠
      none :=
  ⟨(time_slice_panic ⟨1, "2024-06-10", "09:"⟩ _).2 (by decide) (by decide),
   (time_slice_panic ⟨1, "2024-06-10", "09:00:00"⟩ _).1 (by decide)⟩

/-! ### The slot selector (`selectUniqueSlots`, main.go:375-393)

The Go loop keeps a `usedTimes` set and appends a slot only when its time
is unseen and the result is still below `config.AppointmentCount`.  The
accumulator pair (`usedTimes`, `selectedSlots`) becomes two explicit
arguments of the recursion. -/

/-- The loop body of `selectUniqueSlots` (main.go:379-384). -/
def selectLoop (count : Int) (used : List String) (selected : List TimeSlot) :
    List TimeSlot → List TimeSlot
  | [] => selected
  | slot :: rest =>
    if used.contains slot.time = false ∧ (selected.length : Int) < count then
      selectLoop count (slot.time :: used) (selected ++ [slot]) rest
    else selectLoop count used selected rest

/-- Embedding of `selectUniqueSlots` (main.go:375-393); `count` is the
configured `AppointmentCount` (a Go `int`). -/
def selectUniqueSlots (count : Int) (allSlots : List TimeSlot) : List TimeSlot :=
  selectLoop count [] [] allSlots

theorem selectLoop_length_le (count : Int) (l : List TimeSlot) :
    ∀ (used : List String) (sel : List TimeSlot),
      (selectLoop count used sel l).length ≤ max sel.length count.toNat := by
  induction l with
  | nil => intro used sel; simp [selectLoop]
  | cons slot rest ih =>
    intro used sel
    rw [selectLoop]
    split
    case isTrue h =>
      refine (ih _ _).trans ?_
      have := h.2
      simp only [List.length_append, List.length_cons, List.length_nil]
      omega
    case isFalse h => exact (ih _ _).trans (by omega)

theorem selectLoop_mem (count : Int) (l : List TimeSlot) :
    ∀ (used : List String) (sel : List TimeSlot) (x : TimeSlot),
      x ∈ selectLoop count used sel l → x ∈ sel ∨ x ∈ l := by
  induction l with
  | nil =>
    intro used sel x hx
    simp only [selectLoop] at hx
    exact Or.inl hx
  | cons slot rest ih =>
    intro used sel x hx
    rw [selectLoop] at hx
    split at hx
    case isTrue h =>
      rcases ih _ _ x hx with hs | hr
      · rcases List.mem_append.1 hs with h1 | h1
        · exact Or.inl h1
        · simp only [List.mem_singleton] at h1
          subst h1
          exact Or.inr (List.mem_cons_self ..)
      · exact Or.inr (List.mem_cons_of_mem _ hr)
    case isFalse h =>
      rcases ih _ _ x hx with hs | hr
      · exact Or.inl hs
      · exact Or.inr (List.mem_cons_of_mem _ hr)

theorem selectLoop_pairwise (count : Int) (l : List TimeSlot) :
    ∀ (used : List String) (sel : List TimeSlot),
      (∀ s ∈ sel, s.time ∈ used) → sel.Pairwise (fun a b => a.time ≠ b.time) →
      (selectLoop count used sel l).Pairwise (fun a b => a.time ≠ b.time) := by
  induction l with
  | nil =>
    intro used sel _ hp
    simpa only [selectLoop] using hp
  | cons slot rest ih =>
    intro used sel hsub hp
    rw [selectLoop]
    split
    case isTrue h =>
      apply ih
      · intro s hs
        rcases List.mem_append.1 hs with h1 | h1
        · exact List.mem_cons_of_mem _ (hsub s h1)
        · simp only [List.mem_singleton] at h1
          subst h1
          exact List.mem_cons_self ..
      · rw [List.pairwise_append]
        refine ⟨hp, List.pairwise_singleton .., ?_⟩
        intro a ha b hb heq
        simp only [List.mem_singleton] at hb
        have hmem : b.time ∈ used := heq ▸ hsub a ha
        rw [hb] at hmem
        have hnc := h.1
        simp [List.elem_iff] at hnc
        exact hnc hmem
    case isFalse h => exact ih _ _ hsub hp

/-- C3: the selector returns at most `count` slots, no two returned slots
share a time-of-day, and every returned slot comes from the input list. -/
theorem selectUniqueSlots_spec (count : Int) (allSlots : List TimeSlot) :
    (selectUniqueSlots count allSlots).length ≤ count.toNat ∧
    (selectUniqueSlots count allSlots).Pairwise (fun a b => a.time ≠ b.time) ∧
    ∀ s ∈ selectUniqueSlots count allSlots, s ∈ allSlots := by
  refine ⟨?_, ?_, ?_⟩
  · have := selectLoop_length_le count allSlots [] []
    simpa using this
  · exact selectLoop_pairwise count allSlots [] [] (by simp) List.Pairwise.nil
  · intro s hs
    rcases selectLoop_mem count allSlots [] [] s hs with h | h
    · exact absurd h (List.not_mem_nil s)
    · exact h

/-! ### The slot collector (`collectAllTimeSlots`, main.go:264-309)

The two remote lookups `getAvailableDates` (main.go:311-333) and
`getAvailableTimes` (main.go:335-373) are modelled by oracles from an order
id (and the target date) to a Go `([]string, error)` pair.  The loop body
appends, per order in input order, one `TimeSlot` per returned time string,
skipping the order on a failed date lookup, an absent target date, or a
failed time lookup.  The final `sort.Slice` (main.go:304-307) is embedded
relationally: by its documented contract it produces SOME permutation of
the accumulated slots that is sorted by the comparison closure, and it is
NOT guaranteed to be stable, so equal `Time` strings may end up in either
relative order. -/

/-- Byte-wise lexicographic `<` on Go strings (the `<` of main.go:305),
on the character lists of the model. -/
def goStringLt : List Char → List Char → Bool
  | [], [] => false
  | [], _ :: _ => true
  | _ :: _, [] => false
  | a :: as, b :: bs => if a < b then true else if a == b then goStringLt as bs else false

/-- The comparison closure passed to `sort.Slice` (main.go:304-306). -/
def timeLt (a b : TimeSlot) : Bool := goStringLt a.time.data b.time.data

/-- The documented postcondition of `sort.Slice(x, less)`: the output is a
permutation of the input, non-decreasing under `less`; equal elements may
appear in any order (`sort.Slice` is not stable). -/
def SortSliceOutput (input output : List TimeSlot) : Prop :=
  output.Perm input ∧ output.Pairwise (fun a b => timeLt b a = false)

/-- One iteration of the collection loop (main.go:269-302): the slots a
single order contributes, `[]` whenever the order is skipped. -/
def orderSlots (getDates : Int → Except String (List String))
    (getTimes : Int → String → Except String (List String))
    (targetDateStr : String) (order : Order) : List TimeSlot :=
  match getDates order.id with
  | Except.error _ => []
  | Except.ok dates =>
    if dates.contains targetDateStr then
      match getTimes order.id targetDateStr with
      | Except.error _ => []
      | Except.ok times => times.map (fun t => ⟨order.id, targetDateStr, t⟩)
    else []

/-- The accumulated `allSlots` before the sort (main.go:265-302): the loop
appends each order's contribution in input order. -/
def collectSlotsLoop (getDates : Int → Except String (List String))
    (getTimes : Int → String → Except String (List String))
    (targetDateStr : String) (orders : List Order) : List TimeSlot :=
  orders.flatMap (orderSlots getDates getTimes targetDateStr)

/-- Relational embedding of `collectAllTimeSlots` (main.go:264-309): the
returned pair holds any valid `sort.Slice` output of the accumulated slots,
and the error component, which the function always returns as `nil`. -/
def CollectAllTimeSlots (getDates : Int → Except String (List String))
    (getTimes : Int → String → Except String (List String))
    (targetDateStr : String) (orders : List Order)
    (out : List TimeSlot × Option String) : Prop :=
  SortSliceOutput (collectSlotsLoop getDates getTimes targetDateStr orders) out.1 ∧
    out.2 = none

theorem orderSlots_eq_nil (getDates : Int → Except String (List String))
    (getTimes : Int → String → Except String (List String))
    (targetDateStr : String) (o : Order)
    (hfail : (∃ e, getDates o.id = Except.error e) ∨
      (∃ dates e, getDates o.id = Except.ok dates ∧
        dates.contains targetDateStr = true ∧
        getTimes o.id targetDateStr = Except.error e)) :
    orderSlots getDates getTimes targetDateStr o = [] := by
  unfold orderSlots
  rcases hfail with ⟨e, he⟩ | ⟨dates, e, hd, hc, he⟩
  · rw [he]
  · simp only [hd, hc, he, if_true]

/-- C5: a failing date lookup (or time lookup) for one order only removes
that order's contribution; the slots of every other order are still
collected, and the overall collection result is unchanged. -/
theorem collect_partial_tolerance (getDates : Int → Except String (List String))
    (getTimes : Int → String → Except String (List String))
    (targetDateStr : String) (pre rest : List Order) (o : Order)
    (hfail : (∃ e, getDates o.id = Except.error e) ∨
      (∃ dates e, getDates o.id = Except.ok dates ∧
        dates.contains targetDateStr = true ∧
        getTimes o.id targetDateStr = Except.error e)) :
    collectSlotsLoop getDates getTimes targetDateStr (pre ++ o :: rest) =
      collectSlotsLoop getDates getTimes targetDateStr (pre ++ rest) ∧
    ∀ out, CollectAllTimeSlots getDates getTimes targetDateStr (pre ++ o :: rest) out ↔
      CollectAllTimeSlots getDates getTimes targetDateStr (pre ++ rest) out := by
  have hloop : collectSlotsLoop getDates getTimes targetDateStr (pre ++ o :: rest) =
      collectSlotsLoop getDates getTimes targetDateStr (pre ++ rest) := by
    unfold collectSlotsLoop
    rw [List.flatMap_append, List.flatMap_append, List.flatMap_cons,
      orderSlots_eq_nil getDates getTimes targetDateStr o hfail]
    simp
  refine ⟨hloop, fun out => ?_⟩
  unfold CollectAllTimeSlots
  rw [hloop]

theorem collect_partial_tolerance_witness :
    collectSlotsLoop
        (fun i => if i = 2 then Except.error "connection refused" else Except.ok ["2024-06-10"])
        (fun _ _ => Except.ok ["09:00:00"]) "2024-06-10"
        [⟨1, "", "", "", ⟨1, "NATAL"⟩⟩, ⟨2, "", "", "", ⟨1, "NATAL"⟩⟩,
          ⟨3, "", "", "", ⟨1, "NATAL"⟩⟩] =
      collectSlotsLoop
        (fun i => if i = 2 then Except.error "connection refused" else Except.ok ["2024-06-10"])
        (fun _ _ => Except.ok ["09:00:00"]) "2024-06-10"
        [⟨1, "", "", "", ⟨1, "NATAL"⟩⟩, ⟨3, "", "", "", ⟨1, "NATAL"⟩⟩] :=
  (collect_partial_tolerance _ _ "2024-06-10"
      [⟨1, "", "", "", ⟨1, "NATAL"⟩⟩] [⟨3, "", "", "", ⟨1, "NATAL"⟩⟩]
      ⟨2, "", "", "", ⟨1, "NATAL"⟩⟩
      (Or.inl ⟨"connection refused", rfl⟩)).1

/-! ### The concurrent booking coordinator (`bookAppointmentsConcurrently`,
main.go:400-427)

The Go function launches one goroutine per slot over a pre-sized result
slice and a buffered channel `semaphore` of capacity 5.  Two embeddings:

* `bookAll`: the deterministic input/output function — task `i` books slot
  `i` with its own oracle `post i`; `none` if any task panics (a goroutine
  panic crashes the program).
* `BatchStep`: a small-step transition system over the task phases and the
  result slice.  `acquire` models `semaphore <- struct{}{}` (enabled only
  while fewer than 5 tasks hold the gate); `finish` models the remote call
  returning together with the deferred `<-semaphore` and the
  index-addressed write `results[index] = ...` — it is enabled whether the
  booking call returned a response or an error, which is exactly the
  unconditional `defer` release of the source.  Schedules (arbitrary
  interleavings of `acquire`/`finish` across tasks) model the
  nondeterministic completion order. -/

/-- The `BookingResult{response, err}` written by a task (main.go:417-421):
on error the response is the Go zero value. -/
def toBookingResult : Except String BookingResponse → BookingResult
  | Except.ok r => ⟨r, none⟩
  | Except.error e => ⟨BookingResponse.zero, some e⟩

/-- Task `i` books slot `i`: the results of tasks `i, i+1, ...` on the
remaining slots; `none` if some task panics. -/
def bookAllFrom (post : Nat → BookingRequest → HttpOutcome) :
    Nat → List TimeSlot → Option (List BookingResult)
  | _, [] => some []
  | i, slot :: rest =>
    match bookAppointment slot (post i), bookAllFrom post (i + 1) rest with
    | some r, some rs => some (toBookingResult r :: rs)
    | _, _ => none

/-- Deterministic input/output embedding of
`bookAppointmentsConcurrently` (main.go:400-427). -/
def bookAll (slots : List TimeSlot) (post : Nat → BookingRequest → HttpOutcome) :
    Option (List BookingResult) :=
  bookAllFrom post 0 slots

/-- Phase of one goroutine: before `semaphore <- struct{}{}`, holding the
gate during the remote call, or finished (gate released, result written). -/
inductive TaskPhase where
  | waiting
  | inCall
  | done
deriving DecidableEq, Repr

/-- State of the coordinator: one phase per task and the pre-sized result
slice (`make([]BookingResult, len(slots))`, main.go:401), `none` marking a
not-yet-written entry. -/
structure BatchState where
  phases : List TaskPhase
  results : List (Option BookingResult)
deriving DecidableEq, Repr

/-- All tasks launched, nothing written yet. -/
def initState (slots : List TimeSlot) : BatchState :=
  ⟨List.replicate slots.length TaskPhase.waiting, List.replicate slots.length none⟩

/-- Number of tasks currently holding the admission gate (in-flight remote
booking calls). -/
def inFlight (st : BatchState) : Nat :=
  st.phases.countP (· == TaskPhase.inCall)

/-- One scheduler step of the goroutine batch (main.go:406-423). -/
inductive BatchStep (slots : List TimeSlot) (post : Nat → BookingRequest → HttpOutcome) :
    BatchState → BatchState → Prop where
  | acquire (st : BatchState) (i : Nat)
      (hw : st.phases[i]? = some TaskPhase.waiting)
      (hgate : inFlight st < 5) :
      BatchStep slots post st ⟨st.phases.set i TaskPhase.inCall, st.results⟩
  | finish (st : BatchState) (i : Nat) (slot : TimeSlot) (r : Except String BookingResponse)
      (hc : st.phases[i]? = some TaskPhase.inCall)
      (hslot : slots[i]? = some slot)
      (hr : bookAppointment slot (post i) = some r) :
      BatchStep slots post st
        ⟨st.phases.set i TaskPhase.done, st.results.set i (some (toBookingResult r))⟩

/-- States the batch can reach from the start under some schedule. -/
def BatchReachable (slots : List TimeSlot) (post : Nat → BookingRequest → HttpOutcome)
    (st : BatchState) : Prop :=
  Relation.ReflTransGen (BatchStep slots post) (initState slots) st

theorem countP_set_inCall (phases : List TaskPhase) (i : Nat) (v : TaskPhase)
    (hi : i < phases.length) :
    (phases.set i v).countP (· == TaskPhase.inCall) =
      phases.countP (· == TaskPhase.inCall) -
        (if phases[i] = TaskPhase.inCall then 1 else 0) +
        (if v = TaskPhase.inCall then 1 else 0) := by
  rw [List.countP_set _ _ _ _ hi]
  congr 1
  · congr 1
    by_cases h : phases[i] = TaskPhase.inCall <;> simp [h]
  · by_cases h : v = TaskPhase.inCall <;> simp [h]

theorem batch_inv (slots : List TimeSlot) (post : Nat → BookingRequest → HttpOutcome)
    (st : BatchState) (h : BatchReachable slots post st) :
    st.phases.length = slots.length ∧
    st.results.length = slots.length ∧
    inFlight st ≤ 5 ∧
    (∀ i, st.phases[i]? = some TaskPhase.done →
      ∃ slot r, slots[i]? = some slot ∧ bookAppointment slot (post i) = some r ∧
        st.results[i]? = some (some (toBookingResult r))) ∧
    (∀ (i : Nat) (p : TaskPhase), st.phases[i]? = some p → p ≠ TaskPhase.done →
      st.results[i]? = some none) := by
  induction h with
  | refl =>
    refine ⟨by simp [initState], by simp [initState], ?_, ?_, ?_⟩
    · have : inFlight (initState slots) = 0 := by
        rw [inFlight, List.countP_eq_zero]
        intro a ha
        rw [List.eq_of_mem_replicate ha]
        decide
      omega
    · intro i hi
      have hi2 : (List.replicate slots.length TaskPhase.waiting)[i]? = some TaskPhase.done := hi
      simp only [List.getElem?_replicate] at hi2
      split at hi2
      · exact absurd (Option.some.inj hi2) (by decide)
      · exact absurd hi2 (by simp)
    · intro i p hp hne
      have hp2 : (List.replicate slots.length TaskPhase.waiting)[i]? = some p := hp
      simp only [List.getElem?_replicate] at hp2
      show (List.replicate slots.length (none : Option BookingResult))[i]? = some none
      simp only [List.getElem?_replicate]
      split at hp2
      case isTrue hlt => rw [if_pos hlt]
      case isFalse => exact absurd hp2 (by simp)
  | @tail st stc hsteps hstep ih =>
    obtain ⟨ihp, ihr, ihf, ihdone, ihnot⟩ := ih
    cases hstep with
    | acquire i hw hgate =>
      obtain ⟨hilt, hival⟩ := List.getElem?_eq_some_iff.1 hw
      refine ⟨by simpa using ihp, ihr, ?_, ?_, ?_⟩
      · show (st.phases.set i TaskPhase.inCall).countP (· == TaskPhase.inCall) ≤ 5
        rw [countP_set_inCall _ _ _ hilt, hival]
        have hg : st.phases.countP (· == TaskPhase.inCall) < 5 := hgate
        rw [if_neg (by decide : ¬ (TaskPhase.waiting = TaskPhase.inCall)), if_pos rfl]
        omega
      · intro j hj
        rw [List.getElem?_set] at hj
        by_cases hij : i = j
        · rw [if_pos hij, if_pos hilt] at hj
          exact absurd (Option.some.inj hj) (by decide)
        · rw [if_neg hij] at hj
          exact ihdone j hj
      · intro j p hp hne
        rw [List.getElem?_set] at hp
        by_cases hij : i = j
        · subst hij
          exact ihnot i TaskPhase.waiting hw (by decide)
        · rw [if_neg hij] at hp
          exact ihnot j p hp hne
    | finish i slot r hc hslot hr =>
      obtain ⟨hilt, hival⟩ := List.getElem?_eq_some_iff.1 hc
      have hirlt : i < st.results.length := by
        rw [ihr]
        exact (List.getElem?_eq_some_iff.1 hslot).1
      refine ⟨by simpa using ihp, by simpa using ihr, ?_, ?_, ?_⟩
      · show (st.phases.set i TaskPhase.done).countP (· == TaskPhase.inCall) ≤ 5
        rw [countP_set_inCall _ _ _ hilt, hival]
        have hg : st.phases.countP (· == TaskPhase.inCall) ≤ 5 := ihf
        rw [if_pos rfl, if_neg (by decide : ¬ (TaskPhase.done = TaskPhase.inCall))]
        omega
      · intro j hj
        rw [List.getElem?_set] at hj
        by_cases hij : i = j
        · subst hij
          refine ⟨slot, r, hslot, hr, ?_⟩
          show (st.results.set i (some (toBookingResult r)))[i]? =
            some (some (toBookingResult r))
          rw [List.getElem?_set, if_pos rfl, if_pos hirlt]
        · rw [if_neg hij] at hj
          obtain ⟨slot', r', h1, h2, h3⟩ := ihdone j hj
          refine ⟨slot', r', h1, h2, ?_⟩
          show (st.results.set i (some (toBookingResult r)))[j]? =
            some (some (toBookingResult r'))
          rw [List.getElem?_set, if_neg hij]
          exact h3
      · intro j p hp hne
        rw [List.getElem?_set] at hp
        by_cases hij : i = j
        · rw [if_pos hij, if_pos hilt] at hp
          exact absurd (Option.some.inj hp).symm hne
        · rw [if_neg hij] at hp
          show (st.results.set i (some (toBookingResult r)))[j]? = some none
          rw [List.getElem?_set, if_neg hij]
          exact ihnot j p hp hne

/-- C4: under every schedule, at most 5 booking calls are in flight at any
reachable instant, and a task holding the gate can always release it in one
step — whether its booking call produced a response or an error (the
unconditional deferred release). -/
theorem booking_gate_bounded (slots : List TimeSlot)
    (post : Nat → BookingRequest → HttpOutcome) (st : BatchState)
    (h : BatchReachable slots post st) :
    inFlight st ≤ 5 ∧
    ∀ i slot r, st.phases[i]? = some TaskPhase.inCall →
      slots[i]? = some slot → bookAppointment slot (post i) = some r →
      ∃ st', BatchStep slots post st st' ∧ st'.phases[i]? = some TaskPhase.done := by
  obtain ⟨hp, hr, hf, -, -⟩ := batch_inv slots post st h
  refine ⟨hf, fun i slot r hc hslot hbook => ?_⟩
  refine ⟨_, BatchStep.finish st i slot r hc hslot hbook, ?_⟩
  show (st.phases.set i TaskPhase.done)[i]? = some TaskPhase.done
  have hilt := (List.getElem?_eq_some_iff.1 hc).1
  simp [List.getElem?_set, hilt]

/-- C2: under every schedule in which all tasks have completed, the result
list has the length of the input slot list and its `i`-th entry is exactly
the outcome (response or error) of booking the `i`-th input slot. -/
theorem booking_results_ordered (slots : List TimeSlot)
    (post : Nat → BookingRequest → HttpOutcome) (st : BatchState)
    (h : BatchReachable slots post st)
    (hdone : ∀ i, i < slots.length → st.phases[i]? = some TaskPhase.done) :
    st.results.length = slots.length ∧
    ∀ i slot, slots[i]? = some slot →
      ∃ r, bookAppointment slot (post i) = some r ∧
        st.results[i]? = some (some (toBookingResult r)) := by
  obtain ⟨hp, hr, -, hdinv, -⟩ := batch_inv slots post st h
  refine ⟨hr, fun i slot hslot => ?_⟩
  have hilt := (List.getElem?_eq_some_iff.1 hslot).1
  obtain ⟨slot', r', h1, h2, h3⟩ := hdinv i (hdone i hilt)
  rw [hslot] at h1
  obtain rfl : slot = slot' := Option.some.inj h1
  exact ⟨r', h2, h3⟩

theorem booking_gate_bounded_witness :
    inFlight ⟨[TaskPhase.inCall], [none]⟩ ≤ 5 :=
  (booking_gate_bounded [⟨1, "2024-06-10", "09:00:00"⟩]
      (fun _ _ => HttpOutcome.transportError "boom")
      ⟨[TaskPhase.inCall], [none]⟩
      (Relation.ReflTransGen.tail Relation.ReflTransGen.refl
        (BatchStep.acquire _ 0 rfl (by decide)))).1

theorem booking_results_ordered_witness :
    ∃ r, bookAppointment ⟨1, "2024-06-10", "09:00:00"⟩
        ((fun _ _ => HttpOutcome.transportError "boom") 0) = some r ∧
      (⟨[TaskPhase.done],
          [some ⟨BookingResponse.zero, some "HTTP request failed: boom"⟩]⟩ :
        BatchState).results[0]? = some (some (toBookingResult r)) :=
  (booking_results_ordered [⟨1, "2024-06-10", "09:00:00"⟩]
      (fun _ _ => HttpOutcome.transportError "boom")
      ⟨[TaskPhase.done], [some ⟨BookingResponse.zero, some "HTTP request failed: boom"⟩]⟩
      (Relation.ReflTransGen.tail (Relation.ReflTransGen.tail Relation.ReflTransGen.refl
          (BatchStep.acquire _ 0 rfl (by decide)))
        (BatchStep.finish _ 0 ⟨1, "2024-06-10", "09:00:00"⟩
          (Except.error "HTTP request failed: boom") rfl rfl rfl))
      (fun i hi =>
        match i, hi with
        | 0, _ => rfl
        | n + 1, h => absurd h (by simp))).2
    0 ⟨1, "2024-06-10", "09:00:00"⟩ rfl

/-! ### The run pipeline (`runScheduling`, main.go:142-221)

The remote order fetch (`getAvailableOrders`, main.go:223-252) is modelled
by its outcome `ordersResult`; the collection result, whose sort step is
relational, is passed as `collectOut` and constrained by
`CollectAllTimeSlots` in the theorems; `post` gives each booking task its
HTTP outcome.  Logging and the printed links are not modelled, so a
successful run returns `Except.ok ()`.  The outer `Option` is `none` when a
booking goroutine panics (which crashes the program). -/

def runScheduling (cfg : Config) (ordersResult : Except String (List Order))
    (collectOut : List TimeSlot × Option String)
    (post : Nat → BookingRequest → HttpOutcome) : Option (Except String Unit) :=
  match ordersResult with
  | Except.error e => some (Except.error ("failed to get orders: " ++ e))
  | Except.ok orders =>
    let targetOrders := orders.filter (fun o => o.location.nome == cfg.location)
    if targetOrders.isEmpty then
      some (Except.error "no orders available for specified location on target date")
    else
      match collectOut.2 with
      | some e => some (Except.error ("failed to collect time slots: " ++ e))
      | none =>
        if collectOut.1.isEmpty then
          some (Except.error "no time slots available")
        else
          let slotsToBook := selectUniqueSlots cfg.appointmentCount collectOut.1
          if slotsToBook.isEmpty then
            some (Except.error "no unique slots available")
          else
            match bookAll slotsToBook post with
            | none => none
            | some results =>
              if results.countP (fun r0 => r0.err.isNone) = 0 then
                some (Except.error "all booking attempts failed")
              else some (Except.ok ())

/-- With a successful order fetch and no goroutine panic, `runScheduling`
returns `none` never, `ok` or one of exactly four fatal error messages. -/
theorem runScheduling_messages (cfg : Config) (fetched : List Order)
    (out : List TimeSlot × Option String) (post : Nat → BookingRequest → HttpOutcome)
    (h2 : out.2 = none) :
    runScheduling cfg (Except.ok fetched) out post = none ∨
    runScheduling cfg (Except.ok fetched) out post = some (Except.ok ()) ∨
    ∃ m, runScheduling cfg (Except.ok fetched) out post = some (Except.error m) ∧
      (m = "no orders available for specified location on target date" ∨
       m = "no time slots available" ∨
       m = "no unique slots available" ∨
       m = "all booking attempts failed") := by
  unfold runScheduling
  rw [h2]
  dsimp only
  split
  · exact Or.inr (Or.inr ⟨_, rfl, Or.inl rfl⟩)
  · split
    · exact Or.inr (Or.inr ⟨_, rfl, Or.inr (Or.inl rfl)⟩)
    · split
      · exact Or.inr (Or.inr ⟨_, rfl, Or.inr (Or.inr (Or.inl rfl))⟩)
      · split
        · exact Or.inl rfl
        · split
          · exact Or.inr (Or.inr ⟨_, rfl, Or.inr (Or.inr (Or.inr rfl))⟩)
          · exact Or.inr (Or.inl rfl)

theorem collect_msg_head (e : String) :
    ("failed to collect time slots: " ++ e).data.head? = some 'f' := by
  rw [String.data_append]
  rfl

/-- C10: `collectAllTimeSlots` always returns a `nil` error — every
per-order failure is absorbed by skipping — so the caller branch of
`runScheduling` that wraps a collection error is unreachable: no run ever
surfaces the `failed to collect time slots` error. -/
theorem collect_never_errors (getDates : Int → Except String (List String))
    (getTimes : Int → String → Except String (List String)) (targetDateStr : String)
    (orders : List Order) (out : List TimeSlot × Option String)
    (hout : CollectAllTimeSlots getDates getTimes targetDateStr orders out) :
    out.2 = none ∧
    ∀ (cfg : Config) (fetched : List Order) (post : Nat → BookingRequest → HttpOutcome)
      (e : String),
      runScheduling cfg (Except.ok fetched) out post ≠
        some (Except.error ("failed to collect time slots: " ++ e)) := by
  refine ⟨hout.2, fun cfg fetched post e heq => ?_⟩
  rcases runScheduling_messages cfg fetched out post hout.2 with h | h | ⟨m, hm, hcase⟩
  · rw [heq] at h
    exact Option.noConfusion h
  · rw [heq] at h
    exact Except.noConfusion (Option.some.inj h)
  · rw [heq] at hm
    have hme : ("failed to collect time slots: " ++ e) = m :=
      Except.error.inj (Option.some.inj hm)
    have hhead := collect_msg_head e
    rw [hme] at hhead
    rcases hcase with rfl | rfl | rfl | rfl <;> exact absurd hhead (by decide)

theorem collect_never_errors_witness :
    (([], none) : List TimeSlot × Option String).2 = none ∧
    runScheduling ⟨"NATAL", 2⟩ (Except.ok []) ([], none)
        (fun _ _ => HttpOutcome.transportError "boom") ≠
      some (Except.error ("failed to collect time slots: " ++ "x")) :=
  have h := collect_never_errors (fun _ => Except.error "down") (fun _ _ => Except.ok [])
    "2024-06-10" [] ([], none) ⟨⟨List.Perm.refl [], List.Pairwise.nil⟩, rfl⟩
  ⟨h.1, h.2 ⟨"NATAL", 2⟩ [] (fun _ _ => HttpOutcome.transportError "boom") "x"⟩

/-- C8: with the order fetch succeeding (and no booking panic), a run
aborts with a surfaced error exactly when no fetched order matches the
configured location, or no time slot was collected, or the selector yields
zero slots, or every booking attempt fails; and it returns success exactly
when at least one booking attempt succeeds. -/
theorem run_fatal_cases (cfg : Config) (orders : List Order)
    (getDates : Int → Except String (List String))
    (getTimes : Int → String → Except String (List String)) (targetDateStr : String)
    (collectOut : List TimeSlot × Option String)
    (post : Nat → BookingRequest → HttpOutcome) (results : List BookingResult)
    (hcollect : CollectAllTimeSlots getDates getTimes targetDateStr
      (orders.filter (fun o => o.location.nome == cfg.location)) collectOut)
    (hbook : bookAll (selectUniqueSlots cfg.appointmentCount collectOut.1) post =
      some results) :
    (runScheduling cfg (Except.ok orders) collectOut post = some (Except.ok ()) ↔
      ∃ r ∈ results, r.err = none) ∧
    ((∃ e, runScheduling cfg (Except.ok orders) collectOut post =
        some (Except.error e)) ↔
      (orders.filter (fun o => o.location.nome == cfg.location) = [] ∨
       collectSlotsLoop getDates getTimes targetDateStr
         (orders.filter (fun o => o.location.nome == cfg.location)) = [] ∨
       selectUniqueSlots cfg.appointmentCount collectOut.1 = [] ∨
       ∀ r ∈ results, r.err ≠ none)) := by
  obtain ⟨⟨hperm, hsort⟩, herr⟩ := hcollect
  unfold runScheduling
  rw [herr]
  dsimp only
  by_cases hflt : (orders.filter (fun o => o.location.nome == cfg.location)).isEmpty = true
  · rw [if_pos hflt]
    have hfltnil := List.isEmpty_iff.1 hflt
    have hloopnil : collectSlotsLoop getDates getTimes targetDateStr
        (orders.filter (fun o => o.location.nome == cfg.location)) = [] := by
      rw [hfltnil]
      rfl
    have hc1 : collectOut.1 = [] := (hloopnil ▸ hperm).eq_nil
    have hsel : selectUniqueSlots cfg.appointmentCount collectOut.1 = [] := by
      rw [hc1]
      rfl
    rw [hsel] at hbook
    have hres : results = [] := (Option.some.inj hbook).symm
    refine ⟨⟨fun h => Except.noConfusion (Option.some.inj h), ?_⟩,
      fun _ => Or.inl hfltnil, fun _ => ⟨_, rfl⟩⟩
    rintro ⟨r, hr, -⟩
    rw [hres] at hr
    exact absurd hr (List.not_mem_nil r)
  · rw [if_neg hflt]
    have hfltne : orders.filter (fun o => o.location.nome == cfg.location) ≠ [] :=
      fun hh => hflt (List.isEmpty_iff.2 hh)
    by_cases hslots : collectOut.1.isEmpty = true
    · rw [if_pos hslots]
      have hc1 := List.isEmpty_iff.1 hslots
      rw [hc1] at hperm
      have hloopnil := hperm.symm.eq_nil
      have hsel : selectUniqueSlots cfg.appointmentCount collectOut.1 = [] := by
        rw [hc1]
        rfl
      rw [hsel] at hbook
      have hres : results = [] := (Option.some.inj hbook).symm
      refine ⟨⟨fun h => Except.noConfusion (Option.some.inj h), ?_⟩,
        fun _ => Or.inr (Or.inl hloopnil), fun _ => ⟨_, rfl⟩⟩
      rintro ⟨r, hr, -⟩
      rw [hres] at hr
      exact absurd hr (List.not_mem_nil r)
    · rw [if_neg hslots]
      have hc1ne : collectOut.1 ≠ [] := fun hh => hslots (List.isEmpty_iff.2 hh)
      have hloopne : collectSlotsLoop getDates getTimes targetDateStr
          (orders.filter (fun o => o.location.nome == cfg.location)) ≠ [] :=
        fun hh => hc1ne ((hh ▸ hperm).eq_nil)
      by_cases hselE : (selectUniqueSlots cfg.appointmentCount collectOut.1).isEmpty = true
      · rw [if_pos hselE]
        have hselnil := List.isEmpty_iff.1 hselE
        rw [hselnil] at hbook
        have hres : results = [] := (Option.some.inj hbook).symm
        refine ⟨⟨fun h => Except.noConfusion (Option.some.inj h), ?_⟩,
          fun _ => Or.inr (Or.inr (Or.inl hselnil)), fun _ => ⟨_, rfl⟩⟩
        rintro ⟨r, hr, -⟩
        rw [hres] at hr
        exact absurd hr (List.not_mem_nil r)
      · rw [if_neg hselE]
        have hselne : selectUniqueSlots cfg.appointmentCount collectOut.1 ≠ [] :=
          fun hh => hselE (List.isEmpty_iff.2 hh)
        rw [hbook]
        dsimp only
        by_cases hcnt : results.countP (fun r0 => r0.err.isNone) = 0
        · rw [if_pos hcnt]
          have hall : ∀ r ∈ results, r.err ≠ none := by
            intro r hr hrn
            apply List.countP_eq_zero.1 hcnt r hr
            rw [hrn]
            rfl
          refine ⟨⟨fun h => Except.noConfusion (Option.some.inj h), ?_⟩,
            fun _ => Or.inr (Or.inr (Or.inr hall)), fun _ => ⟨_, rfl⟩⟩
          rintro ⟨r, hr, hn⟩
          exact absurd hn (hall r hr)
        · rw [if_neg hcnt]
          have hex : ∃ r ∈ results, r.err = none := by
            obtain ⟨r, hr, hp⟩ := List.countP_pos_iff.1 (Nat.pos_of_ne_zero hcnt)
            exact ⟨r, hr, Option.isNone_iff_eq_none.1 hp⟩
          refine ⟨⟨fun _ => hex, fun _ => rfl⟩, ?_, ?_⟩
          · rintro ⟨e, he⟩
            exact Except.noConfusion (Option.some.inj he)
          · rintro (h | h | h | h)
            · exact absurd h hfltne
            · exact absurd h hloopne
            · exact absurd h hselne
            · obtain ⟨r, hr, hn⟩ := hex
              exact absurd hn (h r hr)

theorem run_fatal_cases_witness :
    runScheduling ⟨"NATAL", 2⟩ (Except.ok [⟨1, "", "", "", ⟨1, "NATAL"⟩⟩])
        ([⟨1, "2024-06-10", "09:00:00"⟩], none)
        (fun _ _ => HttpOutcome.reply 200 "raw" (Except.ok ⟨"C1", 1⟩)) =
      some (Except.ok ()) :=
  (run_fatal_cases ⟨"NATAL", 2⟩ [⟨1, "", "", "", ⟨1, "NATAL"⟩⟩]
      (fun _ => Except.ok ["2024-06-10"]) (fun _ _ => Except.ok ["09:00:00"]) "2024-06-10"
      ([⟨1, "2024-06-10", "09:00:00"⟩], none)
      (fun _ _ => HttpOutcome.reply 200 "raw" (Except.ok ⟨"C1", 1⟩))
      [⟨⟨"C1", 1⟩, none⟩]
      ⟨⟨List.Perm.refl _, List.pairwise_singleton _ _⟩, rfl⟩ rfl).1.2
    ⟨⟨⟨"C1", 1⟩, none⟩, List.mem_singleton.2 rfl, rfl⟩

/-! ### Time-preference of the selection (sort + select)

`collectAllTimeSlots` sorts by the `Time` string and `selectUniqueSlots`
keeps the first slot of each time-of-day, so the selected times are the
smallest distinct time strings.  Which slot wins a time-of-day tie across
orders, however, is NOT determined: `sort.Slice` may order equal elements
either way. -/

theorem goStringLt_trichotomy : ∀ x y : List Char,
    goStringLt x y = true ∨ x = y ∨ goStringLt y x = true := by
  intro x
  induction x with
  | nil =>
    intro y
    cases y with
    | nil => exact Or.inr (Or.inl rfl)
    | cons b bs => exact Or.inl rfl
  | cons a as ih =>
    intro y
    cases y with
    | nil => exact Or.inr (Or.inr rfl)
    | cons b bs =>
      by_cases hab : a < b
      · refine Or.inl ?_
        show (if a < b then true else if a == b then goStringLt as bs else false) = true
        rw [if_pos hab]
      · by_cases heq : a = b
        · subst heq
          rcases ih bs with h | h | h
          · refine Or.inl ?_
            show (if a < a then true else if a == a then goStringLt as bs else false) = true
            rw [if_neg (lt_irrefl a), if_pos (by simp), h]
          · exact Or.inr (Or.inl (by rw [h]))
          · refine Or.inr (Or.inr ?_)
            show (if a < a then true else if a == a then goStringLt bs as else false) = true
            rw [if_neg (lt_irrefl a), if_pos (by simp), h]
        · have hba : b < a := by
            rcases lt_trichotomy a b with h | h | h
            · exact absurd h hab
            · exact absurd h heq
            · exact h
          refine Or.inr (Or.inr ?_)
          show (if b < a then true else if b == a then goStringLt bs as else false) = true
          rw [if_pos hba]

theorem selectLoop_extends (count : Int) (l : List TimeSlot) :
    ∀ (used : List String) (sel : List TimeSlot),
      ∃ t, selectLoop count used sel l = sel ++ t := by
  induction l with
  | nil => exact fun used sel => ⟨[], (List.append_nil sel).symm⟩
  | cons slot rest ih =>
    intro used sel
    rw [selectLoop]
    split
    · obtain ⟨t, ht⟩ := ih (slot.time :: used) (sel ++ [slot])
      exact ⟨slot :: t, by rw [ht, List.append_assoc]; rfl⟩
    · exact ih used sel

theorem selectLoop_capped (count : Int) (l : List TimeSlot) :
    ∀ (used : List String) (sel : List TimeSlot),
      ¬ ((sel.length : Int) < count) → selectLoop count used sel l = sel := by
  induction l with
  | nil => exact fun _ _ _ => rfl
  | cons slot rest ih =>
    intro used sel hcap
    rw [selectLoop, if_neg (fun hand => hcap hand.2)]
    exact ih used sel hcap

theorem selectLoop_sorted_inv (count : Int) (l : List TimeSlot) :
    ∀ (used : List String) (sel : List TimeSlot),
      l.Pairwise (fun a b => timeLt b a = false) →
      (∀ s ∈ sel, s.time ∈ used) →
      (∀ t ∈ used, ∃ s, s ∈ sel ∧ s.time = t) →
      (∀ s ∈ sel, ∀ y ∈ l, timeLt y s = false) →
      sel.Pairwise (fun a b => timeLt a b = true) →
      (selectLoop count used sel l).Pairwise (fun a b => timeLt a b = true) ∧
      (∀ c ∈ l, ∀ s ∈ selectLoop count used sel l, timeLt c s = true →
        c.time ∈ (selectLoop count used sel l).map TimeSlot.time) := by
  induction l with
  | nil =>
    intro used sel _ _ _ _ hpair
    exact ⟨hpair, by simp⟩
  | cons slot rest ih =>
    intro used sel hsorted hselused husedsel hcross hpair
    rw [List.pairwise_cons] at hsorted
    obtain ⟨hhead, hrest⟩ := hsorted
    rw [selectLoop]
    by_cases hcond : used.contains slot.time = false ∧ (sel.length : Int) < count
    · rw [if_pos hcond]
      have hnotused : slot.time ∉ used := by
        have hnc := hcond.1
        simp [List.elem_iff] at hnc
        exact hnc
      have h1 : ∀ s ∈ sel ++ [slot], s.time ∈ slot.time :: used := by
        intro s hs
        rcases List.mem_append.1 hs with h | h
        · exact List.mem_cons_of_mem _ (hselused s h)
        · simp only [List.mem_singleton] at h
          rw [h]
          exact List.mem_cons_self ..
      have h2 : ∀ t ∈ slot.time :: used, ∃ s, s ∈ sel ++ [slot] ∧ s.time = t := by
        intro t ht
        rcases List.mem_cons.1 ht with rfl | h
        · exact ⟨slot, List.mem_append.2 (Or.inr (List.mem_singleton.2 rfl)), rfl⟩
        · obtain ⟨s, hssel, hst⟩ := husedsel t h
          exact ⟨s, List.mem_append.2 (Or.inl hssel), hst⟩
      have h3 : ∀ s ∈ sel ++ [slot], ∀ y ∈ rest, timeLt y s = false := by
        intro s hs y hy
        rcases List.mem_append.1 hs with h | h
        · exact hcross s h y (List.mem_cons_of_mem _ hy)
        · simp only [List.mem_singleton] at h
          rw [h]
          exact hhead y hy
      have h4 : (sel ++ [slot]).Pairwise (fun a b => timeLt a b = true) := by
        rw [List.pairwise_append]
        refine ⟨hpair, List.pairwise_singleton .., fun a ha b hb => ?_⟩
        simp only [List.mem_singleton] at hb
        have hne : a.time ≠ slot.time := fun he => hnotused (he ▸ hselused a ha)
        have hfalse : timeLt slot a = false := hcross a ha slot (List.mem_cons_self ..)
        rcases goStringLt_trichotomy a.time.data slot.time.data with h | h | h
        · rw [hb]
          exact h
        · exact absurd (String.ext h) hne
        · rw [timeLt] at hfalse
          rw [hfalse] at h
          exact Bool.noConfusion h
      obtain ⟨hp, hdc⟩ := ih (slot.time :: used) (sel ++ [slot]) hrest h1 h2 h3 h4
      refine ⟨hp, ?_⟩
      intro c hc s hs hlt
      rcases List.mem_cons.1 hc with rfl | hcr
      · have hmem : c ∈ selectLoop count (c.time :: used) (sel ++ [c]) rest := by
          obtain ⟨t, ht⟩ := selectLoop_extends count rest (c.time :: used) (sel ++ [c])
          rw [ht]
          exact List.mem_append.2 (Or.inl (List.mem_append.2
            (Or.inr (List.mem_singleton.2 rfl))))
        exact List.mem_map.2 ⟨c, hmem, rfl⟩
      · exact hdc c hcr s hs hlt
    · rw [if_neg hcond]
      by_cases hused : used.contains slot.time = false
      · have hcap : ¬ ((sel.length : Int) < count) := fun hlen => hcond ⟨hused, hlen⟩
        rw [selectLoop_capped count rest used sel hcap]
        refine ⟨hpair, ?_⟩
        intro c hc s hs hlt
        have hfalse := hcross s hs c hc
        rw [hfalse] at hlt
        exact Bool.noConfusion hlt
      · have hmem : slot.time ∈ used := by
          cases hh : used.contains slot.time with
          | false => exact absurd hh hused
          | true =>
            simp [List.elem_iff] at hh
            exact hh
        obtain ⟨s0, hs0sel, hs0t⟩ := husedsel slot.time hmem
        obtain ⟨hp, hdc⟩ := ih used sel hrest hselused husedsel
          (fun s hs y hy => hcross s hs y (List.mem_cons_of_mem _ hy)) hpair
        refine ⟨hp, ?_⟩
        intro c hc s hs hlt
        rcases List.mem_cons.1 hc with rfl | hcr
        · have hs0res : s0 ∈ selectLoop count used sel rest := by
            obtain ⟨t, ht⟩ := selectLoop_extends count rest used sel
            rw [ht]
            exact List.mem_append.2 (Or.inl hs0sel)
          exact List.mem_map.2 ⟨s0, hs0res, hs0t⟩
        · exact hdc c hcr s hs hlt

/-- C7 (amended): for every valid sorted output of the collected slots the
selection prefers earliest time-of-day strings — the selected slots come
from the collected slots, carry strictly increasing times, and any
collected time-of-day below a selected one is itself selected.  Which
order's slot wins a time-of-day tie is NOT determined by input order:
`sort.Slice` is unstable, so equal times may be permuted (see the
counterexample). -/
theorem select_prefers_earliest (collected ys : List TimeSlot) (k : Int)
    (hs : SortSliceOutput collected ys) :
    (∀ s ∈ selectUniqueSlots k ys, s ∈ collected) ∧
    (selectUniqueSlots k ys).Pairwise (fun a b => timeLt a b = true) ∧
    ∀ c ∈ collected, ∀ s ∈ selectUniqueSlots k ys, timeLt c s = true →
      c.time ∈ (selectUniqueSlots k ys).map TimeSlot.time := by
  obtain ⟨hperm, hsorted⟩ := hs
  have main := selectLoop_sorted_inv k ys [] [] hsorted (by simp) (by simp) (by simp)
    List.Pairwise.nil
  refine ⟨?_, main.1, ?_⟩
  · intro s hsm
    rcases selectLoop_mem k ys [] [] s hsm with h | h
    · exact absurd h (List.not_mem_nil s)
    · exact hperm.mem_iff.1 h
  · intro c hc s hsm hlt
    exact main.2 c (hperm.mem_iff.2 hc) s hsm hlt

theorem select_prefers_earliest_witness :
    (∀ s ∈ selectUniqueSlots 2
        [⟨1, "2024-06-10", "09:00:00"⟩, ⟨2, "2024-06-10", "10:00:00"⟩],
      s ∈ [(⟨1, "2024-06-10", "09:00:00"⟩ : TimeSlot), ⟨2, "2024-06-10", "10:00:00"⟩]) ∧
    (selectUniqueSlots 2
        [⟨1, "2024-06-10", "09:00:00"⟩, ⟨2, "2024-06-10", "10:00:00"⟩]).Pairwise
      (fun a b => timeLt a b = true) :=
  have h := select_prefers_earliest
    [⟨1, "2024-06-10", "09:00:00"⟩, ⟨2, "2024-06-10", "10:00:00"⟩]
    [⟨1, "2024-06-10", "09:00:00"⟩, ⟨2, "2024-06-10", "10:00:00"⟩] 2
    ⟨List.Perm.refl _, by decide⟩
  ⟨h.1, h.2.1⟩

/-- C7 as stated is false: both collected slots share time `09:00:00`, the
first order encountered in input order is order 1, yet
`[slot of order 2, slot of order 1]` is a valid (sorted) `sort.Slice`
output of the collected list, and on it the selector picks the slot of
order 2 — the tie is not resolved toward the first order in input order. -/
theorem select_stability_counterexample :
    SortSliceOutput
        [⟨1, "2024-06-10", "09:00:00"⟩, ⟨2, "2024-06-10", "09:00:00"⟩]
        [⟨2, "2024-06-10", "09:00:00"⟩, ⟨1, "2024-06-10", "09:00:00"⟩] ∧
    selectUniqueSlots 1
        [⟨2, "2024-06-10", "09:00:00"⟩, ⟨1, "2024-06-10", "09:00:00"⟩] =
      [⟨2, "2024-06-10", "09:00:00"⟩] := by
  constructor
  · exact ⟨by decide, by decide⟩
  · decide

end ItepScheduling
